import Mathlib

/-!
Verification of the csv2md repository (src/csv2md.py).

The file embeds the two functions of the module:

* read_csv_file, which wraps an underlying read and rethrows any failure
  as an IOError carrying the underlying message; the effectful read is
  abstracted as an Except-valued source.

* csv_to_md_table, which parses its input with the CPython csv reader
  (default dialect: quote character a double quote, doublequote on, no
  escape character, minimal quoting, non-strict) over io.StringIO and
  renders a Markdown pipe table.  The reader is embedded as the CPython
  state machine: the StringIO splits the text into lines after each
  newline character, and the reader processes the characters of each
  line followed by an end-of-line marker; a record is emitted whenever
  the machine returns to the start-record state.
-/

namespace Csv2md

/-- States of the CPython csv reader state machine. -/
inductive PState where
  | startRecord
  | startField
  | inField
  | inQuotedField
  | quoteInQuotedField
  | eatCrnl
deriving DecidableEq

/-- Input tokens of the reader: a character of the current line, or the
end-of-line marker processed after each line. -/
inductive Tok where
  | ch (c : Char)
  | eol
deriving DecidableEq

/-- Reader state: machine state, the field being accumulated, the fields
of the record being accumulated, and the emitted records. -/
@[ext]
structure RState where
  st : PState
  field : String
  fields : List String
  records : List (List String)
deriving DecidableEq

def initR : RState := ⟨PState.startRecord, "", [], []⟩

/-- parse_save_field of the CPython reader. -/
def saveField (s : RState) : RState :=
  { s with field := "", fields := s.fields ++ [s.field] }

/-- parse_add_char of the CPython reader. -/
def addCh (c : Char) (s : RState) : RState :=
  { s with field := s.field.push c }

/-- Emit the accumulated record, as the reader does when the machine is
back in the start-record state after an end-of-line marker. -/
def emitRecord (s : RState) : RState :=
  { s with st := PState.startRecord, fields := [],
           records := s.records ++ [s.fields] }

/-- The START_FIELD case of the CPython reader, also reached from
START_RECORD on an ordinary character. -/
def stepStartField (d : Char) (c : Char) (s : RState) : Except String RState :=
  if c = '\n' ∨ c = '\r' then
    Except.ok { saveField s with st := PState.eatCrnl }
  else if c = '"' then
    Except.ok { s with st := PState.inQuotedField }
  else if c = d then
    Except.ok { saveField s with st := PState.startField }
  else
    Except.ok { addCh c s with st := PState.inField }

/-- One step of the CPython csv reader on a token, for delimiter d and the
default dialect. -/
def step (d : Char) (s : RState) (t : Tok) : Except String RState :=
  match t with
  | Tok.eol =>
    match s.st with
    | PState.startRecord => Except.ok (emitRecord s)
    | PState.startField => Except.ok (emitRecord (saveField s))
    | PState.inField => Except.ok (emitRecord (saveField s))
    | PState.inQuotedField => Except.ok s
    | PState.quoteInQuotedField => Except.ok (emitRecord (saveField s))
    | PState.eatCrnl => Except.ok (emitRecord s)
  | Tok.ch c =>
    match s.st with
    | PState.startRecord =>
      if c = '\n' ∨ c = '\r' then Except.ok { s with st := PState.eatCrnl }
      else stepStartField d c s
    | PState.startField => stepStartField d c s
    | PState.inField =>
      if c = '\n' ∨ c = '\r' then
        Except.ok { saveField s with st := PState.eatCrnl }
      else if c = d then
        Except.ok { saveField s with st := PState.startField }
      else Except.ok (addCh c s)
    | PState.inQuotedField =>
      if c = '"' then Except.ok { s with st := PState.quoteInQuotedField }
      else Except.ok (addCh c s)
    | PState.quoteInQuotedField =>
      if c = '"' then Except.ok { addCh c s with st := PState.inQuotedField }
      else if c = d then
        Except.ok { saveField s with st := PState.startField }
      else if c = '\n' ∨ c = '\r' then
        Except.ok { saveField s with st := PState.eatCrnl }
      else Except.ok { addCh c s with st := PState.inField }
    | PState.eatCrnl =>
      if c = '\n' ∨ c = '\r' then Except.ok s
      else Except.error "new-line character seen in unquoted field"

/-- Run the reader over a list of tokens. -/
def runToks (d : Char) : RState → List Tok → Except String RState
  | s, [] => Except.ok s
  | s, t :: ts =>
    match step d s t with
    | Except.error e => Except.error e
    | Except.ok s2 => runToks d s2 ts

/-- Tokens for the characters of the text: every character in order, with
an end-of-line marker after each newline (the StringIO ends a line right
after each newline character). -/
def midToks : List Char → List Tok
  | [] => []
  | c :: rest =>
    if c = '\n' then Tok.ch c :: Tok.eol :: midToks rest
    else Tok.ch c :: midToks rest

/-- The final end-of-line marker: the last line of a nonempty text that
does not end in a newline still ends with an end-of-line marker. -/
def endToks (cs : List Char) : List Tok :=
  match cs.getLast? with
  | none => []
  | some c => if c = '\n' then [] else [Tok.eol]

/-- Full token stream of a text. -/
def toks (cs : List Char) : List Tok := midToks cs ++ endToks cs

/-- End-of-data handling of the reader: a pending field (or an open quoted
field) at end of input yields one more record. -/
def finishR (s : RState) : List (List String) :=
  if s.field ≠ "" ∨ s.st = PState.inQuotedField then
    s.records ++ [s.fields ++ [s.field]]
  else s.records

/-- list(csv.reader(io.StringIO(content), delimiter=delimiter)) of the
source: the reader requires a one-character delimiter and otherwise raises
a TypeError, which the caller catches. -/
def pyCsvParse (content : String) (delimiter : String) :
    Except String (List (List String)) :=
  match delimiter.data with
  | [d] =>
    match runToks d initR (toks content.data) with
    | Except.error e => Except.error e
    | Except.ok s => Except.ok (finishR s)
  | _ => Except.error "\"delimiter\" must be a 1-character string"

/-- Rendering of one row, from the source: a cell join with pipes. -/
def mdRow (cells : List String) : String :=
  "| " ++ String.intercalate " | " cells ++ " |"

/-- Row normalization of the source: pad a short row with empty cells,
truncate a long row to the header width. -/
def normalizeRow (width : Nat) (row : List String) : List String :=
  if row.length < width then row ++ List.replicate (width - row.length) ""
  else if width < row.length then row.take width
  else row

/-- The table built by the source for a nonempty row list: header line,
separator line of --- cells, normalized data lines, joined by newlines. -/
def renderTable (header_row : List String) (rest : List (List String)) : String :=
  String.intercalate "\n"
    ([mdRow header_row, mdRow (List.replicate header_row.length "---")] ++
      rest.map (fun row => mdRow (normalizeRow header_row.length row)))

/-- csv_to_md_table of the source: parse, return the sentinel on zero
rows, render otherwise, and report any parse failure as a returned
string. -/
def csv_to_md_table (csv_content : String) (delimiter : String := ",") : String :=
  match pyCsvParse csv_content delimiter with
  | Except.error e => "An error occurred: " ++ e
  | Except.ok [] => "Empty CSV data."
  | Except.ok (header_row :: rest) => renderTable header_row rest

/-- read_csv_file of the source, with the effectful read abstracted as an
Except-valued outcome: a successful read is returned as is, and any
failure is rethrown as an IOError whose message carries the cause. -/
def read_csv_file (source : Except String String) : Except String String :=
  match source with
  | Except.ok t => Except.ok t
  | Except.error e =>
    Except.error ("Error occurred while reading CSV file: " ++ e)

/-- A reader state with a list of already emitted records prepended. -/
def withRecs (r0 : List (List String)) (s : RState) : RState :=
  { s with records := r0 ++ s.records }

/-- The machine is not inside a quoted field. -/
def Unquoted (s : RState) : Prop :=
  s.st ≠ PState.inQuotedField ∧ s.st ≠ PState.quoteInQuotedField

/-- Between records and while eating line terminators the pending field
is empty. -/
def FieldInv (s : RState) : Prop :=
  (s.st = PState.startRecord ∨ s.st = PState.eatCrnl) → s.field = ""

/-- The normalized form of a data row always has exactly the header
width. -/
theorem normalizeRow_length (w : Nat) (row : List String) :
    (normalizeRow w row).length = w := by
  unfold normalizeRow
  split
  · simp
    omega
  · split
    · simp
      omega
    · omega

/-- C1: whenever parsing succeeds with a nonempty row list, the output is
the rendered table, and every data row is normalized to exactly the
header width before rendering (for any header width, in particular any
width of at least one). -/
theorem data_lines_match_header_width
    (content delimiter : String) (header : List String)
    (rest : List (List String))
    (h : pyCsvParse content delimiter = Except.ok (header :: rest))
    (_hw : 1 ≤ header.length) :
    csv_to_md_table content delimiter = renderTable header rest ∧
      ∀ row ∈ rest, (normalizeRow header.length row).length = header.length := by
  constructor
  · unfold csv_to_md_table
    rw [h]
  · intro row _
    exact normalizeRow_length _ _

/-- Witness for C1 at a concrete input with a short and a long data
row. -/
theorem data_lines_match_header_width_witness :
    csv_to_md_table "Name,Age,City\nJohn,30\nJane,25,Los Angeles,USA" "," =
        renderTable ["Name", "Age", "City"]
          [["John", "30"], ["Jane", "25", "Los Angeles", "USA"]] ∧
      ∀ row ∈ [["John", "30"], ["Jane", "25", "Los Angeles", "USA"]],
        (normalizeRow (["Name", "Age", "City"] : List String).length row).length =
          (["Name", "Age", "City"] : List String).length :=
  data_lines_match_header_width
    "Name,Age,City\nJohn,30\nJane,25,Los Angeles,USA" ","
    ["Name", "Age", "City"] [["John", "30"], ["Jane", "25", "Los Angeles", "USA"]]
    (by rfl) (by decide)

/-- C2: the transformation is a total function on strings and never
escapes with an error: its result is the empty-data sentinel, a rendered
table, or a returned string of the form appending the message to the
error prefix. -/
theorem never_raises (content delimiter : String) :
    (pyCsvParse content delimiter = Except.ok [] ∧
        csv_to_md_table content delimiter = "Empty CSV data.") ∨
      (∃ header rest, pyCsvParse content delimiter = Except.ok (header :: rest) ∧
        csv_to_md_table content delimiter = renderTable header rest) ∨
      (∃ e, pyCsvParse content delimiter = Except.error e ∧
        csv_to_md_table content delimiter = "An error occurred: " ++ e) := by
  unfold csv_to_md_table
  cases h : pyCsvParse content delimiter with
  | error e =>
    right
    right
    exact ⟨e, rfl, rfl⟩
  | ok rows =>
    cases rows with
    | nil =>
      left
      exact ⟨rfl, rfl⟩
    | cons header rest =>
      right
      left
      exact ⟨header, rest, rfl, rfl⟩

/-- C3: the empty input yields the sentinel, and in general any input
that parses to zero rows yields exactly the sentinel string. -/
theorem empty_csv_sentinel :
    csv_to_md_table "" "," = "Empty CSV data." ∧
      ∀ content delimiter, pyCsvParse content delimiter = Except.ok [] →
        csv_to_md_table content delimiter = "Empty CSV data." := by
  constructor
  · rfl
  · intro content delimiter h
    unfold csv_to_md_table
    rw [h]

/-- Witness for C3 at the empty input with the default delimiter. -/
theorem empty_csv_sentinel_witness :
    csv_to_md_table "" "," = "Empty CSV data." :=
  empty_csv_sentinel.2 "" "," (by rfl)

/-- C4: a header-only input renders to exactly the header line and the
separator line, joined by one newline and with no trailing newline. -/
theorem header_only_output :
    csv_to_md_table "Name,Age,City" "," =
      "| Name | Age | City |\n| --- | --- | --- |" := by
  rfl

/-- C5: a row shorter than the header is right-padded with empty cells to
exactly the header width, and the documented short-row example renders as
stated. -/
theorem short_row_padded (width : Nat) (row : List String)
    (h : row.length < width) :
    normalizeRow width row = row ++ List.replicate (width - row.length) "" ∧
      csv_to_md_table "Name,Age,City\nJohn,30" "," =
        "| Name | Age | City |\n| --- | --- | --- |\n| John | 30 |  |" := by
  constructor
  · unfold normalizeRow
    rw [if_pos h]
  · rfl

/-- Witness for C5 at the documented concrete short row. -/
theorem short_row_padded_witness :
    normalizeRow 3 ["John", "30"] =
        ["John", "30"] ++
          List.replicate (3 - (["John", "30"] : List String).length) "" ∧
      csv_to_md_table "Name,Age,City\nJohn,30" "," =
        "| Name | Age | City |\n| --- | --- | --- |\n| John | 30 |  |" :=
  short_row_padded 3 ["John", "30"] (by decide)

/-- C6: a row longer than the header is truncated to its first width
cells, and the documented long-row example renders as stated. -/
theorem long_row_truncated (width : Nat) (row : List String)
    (h : width < row.length) :
    normalizeRow width row = row.take width ∧
      csv_to_md_table "Name,Age,City\nJane,25,Los Angeles,USA" "," =
        "| Name | Age | City |\n| --- | --- | --- |\n| Jane | 25 | Los Angeles |" := by
  constructor
  · unfold normalizeRow
    rw [if_neg (by omega), if_pos h]
  · rfl

/-- Witness for C6 at the documented concrete long row. -/
theorem long_row_truncated_witness :
    normalizeRow 3 ["Jane", "25", "Los Angeles", "USA"] =
        (["Jane", "25", "Los Angeles", "USA"] : List String).take 3 ∧
      csv_to_md_table "Name,Age,City\nJane,25,Los Angeles,USA" "," =
        "| Name | Age | City |\n| --- | --- | --- |\n| Jane | 25 | Los Angeles |" :=
  long_row_truncated 3 ["Jane", "25", "Los Angeles", "USA"] (by decide)

/-- C8: reading returns the complete content of the source on success,
and on any underlying failure it fails with an IOError whose message
carries the underlying cause message. -/
theorem read_csv_file_contract (t m : String) :
    read_csv_file (Except.ok t) = Except.ok t ∧
      read_csv_file (Except.error m) =
        Except.error ("Error occurred while reading CSV file: " ++ m) := by
  exact ⟨rfl, rfl⟩

/-- C10: for a delimiter that is not exactly one character, the parser
fails and the function returns the error-prefixed string instead of a
table. -/
theorem bad_delimiter_error (content delimiter : String)
    (_hne : content ≠ "") (hd : delimiter.length ≠ 1) :
    csv_to_md_table content delimiter =
      "An error occurred: " ++ "\"delimiter\" must be a 1-character string" := by
  unfold csv_to_md_table pyCsvParse
  have hlen : delimiter.data.length ≠ 1 := hd
  match hdata : delimiter.data with
  | [] => rfl
  | [d] =>
    rw [hdata] at hlen
    simp at hlen
  | d1 :: d2 :: ds => rfl

/-- Witness for C10 at a nonempty input and a two-character delimiter. -/
theorem bad_delimiter_error_witness :
    csv_to_md_table "Name,Age,City" ";;" =
      "An error occurred: " ++ "\"delimiter\" must be a 1-character string" :=
  bad_delimiter_error "Name,Age,City" ";;" (by decide) (by decide)

/-- The character list of an appended string is the appended character
lists. -/
theorem data_append (s t : String) : (s ++ t).data = s.data ++ t.data := by
  obtain ⟨l1⟩ := s
  obtain ⟨l2⟩ := t
  rfl

/-- Pushing a character and then appending the rest is appending the
whole list. -/
theorem push_append_mk (f : String) (c : Char) (cs : List Char) :
    f.push c ++ ⟨cs⟩ = f ++ ⟨c :: cs⟩ := by
  obtain ⟨l⟩ := f
  show (⟨(l ++ [c]) ++ cs⟩ : String) = ⟨l ++ (c :: cs)⟩
  rw [List.append_assoc]
  rfl

/-- The per-character tokens are compositional. -/
theorem midToks_append (xs ys : List Char) :
    midToks (xs ++ ys) = midToks xs ++ midToks ys := by
  induction xs with
  | nil => rfl
  | cons a xs ih =>
    by_cases ha : a = '\n' <;> simp [midToks, ha, ih]

/-- A character token of the per-character tokens comes from the
character list. -/
theorem ch_mem_midToks (c : Char) (cs : List Char)
    (h : Tok.ch c ∈ midToks cs) : c ∈ cs := by
  induction cs with
  | nil => simp [midToks] at h
  | cons a cs ih =>
    by_cases ha : a = '\n'
    · simp only [midToks, if_pos ha, List.mem_cons] at h
      rcases h with h | h | h
      · injection h with h
        exact h ▸ List.mem_cons_self a cs
      · exact absurd h (by simp)
      · exact List.mem_cons_of_mem _ (ih h)
    · simp only [midToks, if_neg ha, List.mem_cons] at h
      rcases h with h | h
      · injection h with h
        exact h ▸ List.mem_cons_self a cs
      · exact List.mem_cons_of_mem _ (ih h)

/-- Token streams split at a newline that ends the first part. -/
theorem toks_append_newline (xs ys : List Char)
    (h : xs.getLast? = some '\n') :
    toks (xs ++ ys) = toks xs ++ toks ys := by
  unfold toks
  have hex : endToks xs = [] := by
    unfold endToks
    rw [h]
    rfl
  rw [midToks_append, hex]
  cases hys : ys with
  | nil =>
    simp only [List.append_nil]
    rw [hex]
    simp [midToks, endToks]
  | cons b l =>
    have hey : endToks (xs ++ b :: l) = endToks (b :: l) := by
      unfold endToks
      rw [List.getLast?_append_of_ne_nil _ (by simp)]
    rw [hey]
    simp [List.append_assoc]

/-- Unfolding of the runner on a nonempty token list. -/
theorem runToks_cons (d : Char) (s : RState) (t : Tok) (ts : List Tok) :
    runToks d s (t :: ts) =
      match step d s t with
      | Except.error e => Except.error e
      | Except.ok s2 => runToks d s2 ts := rfl

/-- Unfolding of the runner on an initial token that steps successfully. -/
theorem runToks_cons_ok (d : Char) (s sm : RState) (t : Tok) (ts : List Tok)
    (h : step d s t = Except.ok sm) :
    runToks d s (t :: ts) = runToks d sm ts := by
  rw [runToks_cons, h]

/-- Unfolding of the runner on an initial token that steps to an error. -/
theorem runToks_cons_error (d : Char) (s : RState) (e : String) (t : Tok)
    (ts : List Tok) (h : step d s t = Except.error e) :
    runToks d s (t :: ts) = Except.error e := by
  rw [runToks_cons, h]

/-- Running an appended token list continues from the middle state. -/
theorem runToks_append_ok (d : Char) (ts us : List Tok) (s sm : RState)
    (h : runToks d s ts = Except.ok sm) :
    runToks d s (ts ++ us) = runToks d sm us := by
  induction ts generalizing s with
  | nil =>
    simp only [runToks, Except.ok.injEq] at h
    subst h
    rfl
  | cons t ts ih =>
    cases hstep : step d s t with
    | error e =>
      rw [runToks_cons_error d s e t ts hstep] at h
      exact absurd h (by simp)
    | ok s1 =>
      rw [List.cons_append, runToks_cons_ok d s s1 t (ts ++ us) hstep]
      rw [runToks_cons_ok d s s1 t ts hstep] at h
      exact ih s1 h

/-- A successful run of an appended token list passes through a middle
state. -/
theorem runToks_append_inv (d : Char) (ts us : List Tok) (s s2 : RState)
    (h : runToks d s (ts ++ us) = Except.ok s2) :
    ∃ sm, runToks d s ts = Except.ok sm ∧ runToks d sm us = Except.ok s2 := by
  induction ts generalizing s with
  | nil => exact ⟨s, rfl, h⟩
  | cons t ts ih =>
    cases hstep : step d s t with
    | error e =>
      rw [List.cons_append, runToks_cons_error d s e t (ts ++ us) hstep] at h
      exact absurd h (by simp)
    | ok s1 =>
      rw [List.cons_append, runToks_cons_ok d s s1 t (ts ++ us) hstep] at h
      obtain ⟨sm, hm1, hm2⟩ := ih s1 h
      exact ⟨sm, by rw [runToks_cons_ok d s s1 t ts hstep]; exact hm1, hm2⟩

/-- A step only appends to the emitted records, so prepending records
commutes with a step. -/
theorem step_withRecs (d : Char) (r0 : List (List String)) (s : RState)
    (t : Tok) :
    step d (withRecs r0 s) t = Except.map (withRecs r0) (step d s t) := by
  obtain ⟨st, f, fs, rs⟩ := s
  cases t with
  | eol =>
    cases st <;>
      simp [step, withRecs, emitRecord, saveField, Except.map,
        List.append_assoc]
  | ch c =>
    cases st <;>
      simp only [step, stepStartField, withRecs, emitRecord, saveField,
        addCh, Except.map] <;>
      split_ifs <;>
      simp [List.append_assoc]

/-- Prepending records commutes with a whole run. -/
theorem runToks_withRecs (d : Char) (r0 : List (List String)) (s : RState)
    (ts : List Tok) :
    runToks d (withRecs r0 s) ts = Except.map (withRecs r0) (runToks d s ts) := by
  induction ts generalizing s with
  | nil => rfl
  | cons t ts ih =>
    cases hstep : step d s t with
    | error e =>
      rw [runToks_cons_error d s e t ts hstep,
        runToks_cons_error d (withRecs r0 s) e t ts
          (by rw [step_withRecs, hstep]; rfl)]
      rfl
    | ok s1 =>
      rw [runToks_cons_ok d s s1 t ts hstep,
        runToks_cons_ok d (withRecs r0 s) (withRecs r0 s1) t ts
          (by rw [step_withRecs, hstep]; rfl)]
      exact ih s1

/-- Prepending records commutes with the end-of-data handling. -/
theorem finishR_withRecs (r0 : List (List String)) (s : RState) :
    finishR (withRecs r0 s) = r0 ++ finishR s := by
  obtain ⟨st, f, fs, rs⟩ := s
  unfold finishR withRecs
  split_ifs <;> simp_all [List.append_assoc]

/-- A step on a token other than a double quote preserves being outside
a quoted field and the pending-field emptiness invariant. -/
theorem step_preserves (d : Char) (s s2 : RState) (t : Tok)
    (hq : Unquoted s) (hf : FieldInv s)
    (ht : ∀ c, t = Tok.ch c → c ≠ '"')
    (h : step d s t = Except.ok s2) :
    Unquoted s2 ∧ FieldInv s2 := by
  obtain ⟨st, f, fs, rs⟩ := s
  cases t with
  | eol =>
    cases st <;>
      simp only [step, emitRecord, saveField, Except.ok.injEq] at h <;>
      subst h <;>
      simp_all [Unquoted, FieldInv]
  | ch c =>
    have hc : c ≠ '"' := ht c rfl
    cases st <;>
      simp only [step, stepStartField, emitRecord, saveField, addCh] at h <;>
      split_ifs at h <;>
      (injection h with h; subst h; simp_all [Unquoted, FieldInv])

/-- A run over tokens free of double quotes preserves the invariants. -/
theorem runToks_preserves (d : Char) (ts : List Tok) (s s2 : RState)
    (hq : Unquoted s) (hf : FieldInv s)
    (hts : ∀ c, Tok.ch c ∈ ts → c ≠ '"')
    (h : runToks d s ts = Except.ok s2) :
    Unquoted s2 ∧ FieldInv s2 := by
  induction ts generalizing s with
  | nil =>
    simp only [runToks, Except.ok.injEq] at h
    subst h
    exact ⟨hq, hf⟩
  | cons t ts ih =>
    cases hstep : step d s t with
    | error e =>
      rw [runToks_cons_error d s e t ts hstep] at h
      exact absurd h (by simp)
    | ok s1 =>
      rw [runToks_cons_ok d s s1 t ts hstep] at h
      have hp := step_preserves d s s1 t hq hf
        (fun c hct => hts c (by rw [hct]; exact List.mem_cons_self _ _)) hstep
      exact ih s1 hp.1 hp.2 (fun c hct => hts c (List.mem_cons_of_mem _ hct)) h

/-- After an end-of-line marker processed outside a quoted field, the
machine is back at the start of a record with nothing pending. -/
theorem step_eol_clean (d : Char) (s s2 : RState)
    (hq : Unquoted s) (hf : FieldInv s)
    (h : step d s Tok.eol = Except.ok s2) :
    s2.st = PState.startRecord ∧ s2.field = "" ∧ s2.fields = [] := by
  obtain ⟨st, f, fs, rs⟩ := s
  cases st with
  | startRecord =>
    simp only [step, emitRecord, Except.ok.injEq] at h
    subst h
    exact ⟨rfl, hf (Or.inl rfl), rfl⟩
  | startField =>
    simp only [step, emitRecord, saveField, Except.ok.injEq] at h
    subst h
    exact ⟨rfl, rfl, rfl⟩
  | inField =>
    simp only [step, emitRecord, saveField, Except.ok.injEq] at h
    subst h
    exact ⟨rfl, rfl, rfl⟩
  | inQuotedField => exact absurd rfl hq.1
  | quoteInQuotedField => exact absurd rfl hq.2
  | eatCrnl =>
    simp only [step, emitRecord, Except.ok.injEq] at h
    subst h
    exact ⟨rfl, hf (Or.inr rfl), rfl⟩

/-- Evaluation of the parser at a one-character delimiter. -/
theorem pyCsvParse_single (content : String) (d : Char) :
    pyCsvParse content ⟨[d]⟩ =
      match runToks d initR (toks content.data) with
      | Except.error e => Except.error e
      | Except.ok s => Except.ok (finishR s) := rfl

/-- The parser result on a successful run. -/
theorem pyCsvParse_single_ok (content : String) (d : Char) (s : RState)
    (h : runToks d initR (toks content.data) = Except.ok s) :
    pyCsvParse content ⟨[d]⟩ = Except.ok (finishR s) := by
  rw [pyCsvParse_single, h]

/-- The parser result on a failing run. -/
theorem pyCsvParse_single_error (content : String) (d : Char) (e : String)
    (h : runToks d initR (toks content.data) = Except.error e) :
    pyCsvParse content ⟨[d]⟩ = Except.error e := by
  rw [pyCsvParse_single, h]

/-- A successful parse comes from a successful run. -/
theorem pyCsvParse_single_ok_inv (content : String) (d : Char)
    (r : List (List String))
    (h : pyCsvParse content ⟨[d]⟩ = Except.ok r) :
    ∃ s, runToks d initR (toks content.data) = Except.ok s ∧ finishR s = r := by
  rw [pyCsvParse_single] at h
  cases hrun : runToks d initR (toks content.data) with
  | error e =>
    rw [hrun] at h
    exact absurd h (by simp)
  | ok s =>
    rw [hrun] at h
    exact ⟨s, rfl, by injection h⟩

/-- Parsing is compositional across a record boundary: a prefix with no
double quote that ends in a newline contributes its records in front of
the records of the rest. -/
theorem pyCsvParse_append (d : Char) (pre post : String)
    (hq : ∀ c ∈ pre.data, c ≠ '"')
    (hn : pre.data.getLast? = some '\n')
    (r1 : List (List String))
    (h1 : pyCsvParse pre ⟨[d]⟩ = Except.ok r1) :
    pyCsvParse (pre ++ post) ⟨[d]⟩ =
      Except.map (fun r2 => r1 ++ r2) (pyCsvParse post ⟨[d]⟩) := by
  obtain ⟨s1, hrun1, hfin1⟩ := pyCsvParse_single_ok_inv pre d r1 h1
  have hsplit : pre.data = pre.data.dropLast ++ ['\n'] :=
    (List.dropLast_append_getLast? '\n' (Option.mem_def.mpr hn)).symm
  have hend : endToks pre.data = [] := by
    unfold endToks
    rw [hn]
    rfl
  have hmidpre : midToks pre.data =
      midToks pre.data.dropLast ++ [Tok.ch '\n', Tok.eol] := by
    conv_lhs => rw [hsplit]
    rw [midToks_append]
    rfl
  have htokspre : toks pre.data =
      midToks pre.data.dropLast ++ [Tok.ch '\n', Tok.eol] := by
    unfold toks
    rw [hend, hmidpre]
    simp
  rw [htokspre] at hrun1
  obtain ⟨sa, hA, hBC⟩ :=
    runToks_append_inv d (midToks pre.data.dropLast) [Tok.ch '\n', Tok.eol]
      initR s1 hrun1
  have hinv_a : Unquoted sa ∧ FieldInv sa := by
    refine runToks_preserves d (midToks pre.data.dropLast) initR sa
      ⟨by decide, by decide⟩ (fun _ => rfl) ?_ hA
    intro c hc
    have hcs : c ∈ pre.data.dropLast := ch_mem_midToks c _ hc
    have : c ∈ pre.data := by
      rw [hsplit]
      exact List.mem_append_left _ hcs
    exact hq c this
  cases hx : step d sa (Tok.ch '\n') with
  | error e =>
    rw [runToks_cons_error d sa e _ _ hx] at hBC
    exact absurd hBC (by simp)
  | ok sb =>
    rw [runToks_cons_ok d sa sb _ _ hx] at hBC
    have hinv_b : Unquoted sb ∧ FieldInv sb :=
      step_preserves d sa sb (Tok.ch '\n') hinv_a.1 hinv_a.2
        (fun c hct => by injection hct with hct; rw [← hct]; decide) hx
    cases hy : step d sb Tok.eol with
    | error e =>
      rw [runToks_cons_error d sb e _ _ hy] at hBC
      exact absurd hBC (by simp)
    | ok sc =>
      rw [runToks_cons_ok d sb sc _ _ hy] at hBC
      simp only [runToks, Except.ok.injEq] at hBC
      rw [hBC] at hy
      have hclean := step_eol_clean d sb s1 hinv_b.1 hinv_b.2 hy
      have hcond : ¬(s1.field ≠ "" ∨ s1.st = PState.inQuotedField) := by
        push_neg
        refine ⟨by simp [hclean.2.1], ?_⟩
        rw [hclean.1]
        simp
      have hrecs : s1.records = r1 := by
        rw [← hfin1]
        unfold finishR
        rw [if_neg hcond]
      have hwr : withRecs r1 initR = s1 := by
        apply RState.ext
        · exact hclean.1.symm
        · exact hclean.2.1.symm
        · exact hclean.2.2.symm
        · show r1 ++ ([] : List (List String)) = s1.records
          rw [hrecs, List.append_nil]
      have hdata2 : (pre ++ post).data = pre.data ++ post.data :=
        data_append pre post
      have hruns : runToks d initR (toks (pre ++ post).data) =
          Except.map (withRecs r1) (runToks d initR (toks post.data)) := by
        rw [hdata2, toks_append_newline pre.data post.data hn]
        rw [runToks_append_ok d (toks pre.data) (toks post.data) initR s1
          (by rw [htokspre]; exact hrun1)]
        rw [← hwr]
        exact runToks_withRecs d r1 initR (toks post.data)
      cases hpost : runToks d initR (toks post.data) with
      | error e =>
        rw [pyCsvParse_single_error post d e hpost]
        rw [pyCsvParse_single_error (pre ++ post) d e
          (by rw [hruns, hpost]; rfl)]
        rfl
      | ok s2 =>
        rw [pyCsvParse_single_ok post d s2 hpost]
        rw [pyCsvParse_single_ok (pre ++ post) d (withRecs r1 s2)
          (by rw [hruns, hpost]; rfl)]
        show Except.ok (finishR (withRecs r1 s2)) = Except.ok (r1 ++ finishR s2)
        rw [finishR_withRecs]

/-- Inside a quoted field every character free of the quote character is
data, including the delimiter, newlines and carriage returns; the
end-of-line markers after embedded newlines are ignored. -/
theorem runToks_inQuoted (d : Char) (cs : List Char) :
    ∀ (f : String) (fs : List String) (rs : List (List String)),
      (∀ c ∈ cs, c ≠ '"') →
      runToks d ⟨PState.inQuotedField, f, fs, rs⟩ (midToks cs) =
        Except.ok ⟨PState.inQuotedField, f ++ ⟨cs⟩, fs, rs⟩ := by
  induction cs with
  | nil =>
    intro f fs rs _
    have hf : f ++ (⟨[]⟩ : String) = f := by
      obtain ⟨l⟩ := f
      show (⟨l ++ []⟩ : String) = ⟨l⟩
      rw [List.append_nil]
    rw [hf]
    rfl
  | cons c cs ih =>
    intro f fs rs hq
    have hc : c ≠ '"' := hq c (List.mem_cons_self _ _)
    have hstep : step d ⟨PState.inQuotedField, f, fs, rs⟩ (Tok.ch c) =
        Except.ok ⟨PState.inQuotedField, f.push c, fs, rs⟩ := by
      simp [step, addCh, hc]
    have hrest := ih (f.push c) fs rs (fun a ha => hq a (List.mem_cons_of_mem _ ha))
    rw [push_append_mk] at hrest
    by_cases hnl : c = '\n'
    · subst hnl
      show runToks d ⟨PState.inQuotedField, f, fs, rs⟩
          (Tok.ch '\n' :: Tok.eol :: midToks cs) = _
      rw [runToks_cons_ok d _ _ _ _ hstep]
      rw [runToks_cons_ok d _ _ _ _
        (rfl : step d ⟨PState.inQuotedField, f.push '\n', fs, rs⟩ Tok.eol =
          Except.ok ⟨PState.inQuotedField, f.push '\n', fs, rs⟩)]
      exact hrest
    · show runToks d ⟨PState.inQuotedField, f, fs, rs⟩
          (midToks (c :: cs)) = _
      rw [show midToks (c :: cs) = Tok.ch c :: midToks cs by
        simp [midToks, hnl]]
      rw [runToks_cons_ok d _ _ _ _ hstep]
      exact hrest

/-- C7: a double-quoted field is parsed as one single cell under
conventional CSV quoting: for any field content free of the quote
character that embeds the delimiter or a newline, parsing the quoted
field yields exactly that content as one cell, not split at the embedded
delimiter. -/
theorem quoted_field_single_cell (a : String) (d : Char)
    (hq : ∀ c ∈ a.data, c ≠ '"')
    (_hd : d ∈ a.data ∨ '\n' ∈ a.data) :
    pyCsvParse ("\"" ++ a ++ "\"") ⟨[d]⟩ = Except.ok [[a]] := by
  have hdata : ("\"" ++ a ++ "\"").data = ('"' :: a.data) ++ ['"'] := by
    rw [data_append, data_append]
    rfl
  have hmid : midToks (('"' :: a.data) ++ ['"']) =
      Tok.ch '"' :: (midToks a.data ++ [Tok.ch '"']) := by
    rw [List.cons_append, show midToks ('"' :: (a.data ++ ['"'])) =
      Tok.ch '"' :: midToks (a.data ++ ['"']) by simp [midToks]]
    rw [midToks_append]
    rfl
  have hendq : endToks (('"' :: a.data) ++ ['"']) = [Tok.eol] := by
    unfold endToks
    rw [List.getLast?_append_of_ne_nil _ (by simp)]
    rfl
  have htoks : toks (("\"" ++ a ++ "\"").data) =
      Tok.ch '"' :: ((midToks a.data ++ [Tok.ch '"']) ++ [Tok.eol]) := by
    rw [hdata]
    unfold toks
    rw [hmid, hendq]
    rfl
  have hstep1 : step d initR (Tok.ch '"') =
      Except.ok ⟨PState.inQuotedField, "", [], []⟩ := rfl
  have hmk : ("" : String) ++ ⟨a.data⟩ = a := by
    obtain ⟨l⟩ := a
    show (⟨[] ++ l⟩ : String) = ⟨l⟩
    rw [List.nil_append]
  have hrun : runToks d initR (toks (("\"" ++ a ++ "\"").data)) =
      Except.ok ⟨PState.startRecord, "", [], [[a]]⟩ := by
    rw [htoks]
    rw [runToks_cons_ok d _ _ _ _ hstep1]
    rw [List.append_assoc]
    rw [runToks_append_ok d (midToks a.data) ([Tok.ch '"'] ++ [Tok.eol]) _ _
      (runToks_inQuoted d a.data "" [] [] hq)]
    rw [hmk]
    rfl
  rw [pyCsvParse_single_ok ("\"" ++ a ++ "\"") d _ hrun]
  rfl

/-- Witness for C7 at a quoted field embedding the comma delimiter. -/
theorem quoted_field_single_cell_witness :
    pyCsvParse ("\"" ++ "b,c" ++ "\"") ⟨[',']⟩ = Except.ok [["b,c"]] :=
  quoted_field_single_cell "b,c" ',' (by decide) (Or.inl (by decide))

/-- The normalization of a zero-cell row is a row of exactly width empty
cells. -/
theorem normalizeRow_nil (w : Nat) : normalizeRow w [] = List.replicate w "" := by
  unfold normalizeRow
  cases w <;> simp

/-- C9 counterexample: an input whose blank line sits inside a quoted
field.  The text contains two consecutive newlines after the header, yet
no row parses to an empty row and the only data line is the quoted cell
padded with one empty cell, not a line of three empty cells. -/
theorem blank_line_in_quotes_counterexample :
    ("a,b\n\"x\n\ny\"").data =
        ['a', ',', 'b', '\n', '"', 'x', '\n', '\n', 'y', '"'] ∧
      pyCsvParse "a,b\n\"x\n\ny\"" "," = Except.ok [["a", "b"], ["x\n\ny"]] ∧
      ([] : List String) ∉ [["a", "b"], ["x\n\ny"]] ∧
      csv_to_md_table "a,b\n\"x\n\ny\"" "," =
        "| a | b |\n| --- | --- |\n| x\n\ny |  |" :=
  ⟨rfl, rfl, by decide, rfl⟩

/-- C9 (amended): a blank line at a record boundary, that is one
following a quote-free prefix that ends in a newline, parses to an empty
row of zero cells; that row is normalized to exactly width empty cells
and renders as such a data line, for example a three-column header gives
a line of three empty cells. -/
theorem blank_line_empty_row (d : Char) (pre post : String)
    (header : List String) (rest1 r2 : List (List String))
    (hq : ∀ c ∈ pre.data, c ≠ '"')
    (hn : pre.data.getLast? = some '\n')
    (h1 : pyCsvParse pre ⟨[d]⟩ = Except.ok (header :: rest1))
    (h2 : pyCsvParse post ⟨[d]⟩ = Except.ok r2) :
    pyCsvParse (pre ++ ("\n" ++ post)) ⟨[d]⟩ =
        Except.ok (header :: (rest1 ++ ([[]] ++ r2))) ∧
      csv_to_md_table (pre ++ ("\n" ++ post)) ⟨[d]⟩ =
        renderTable header (rest1 ++ ([[]] ++ r2)) ∧
      normalizeRow header.length [] = List.replicate header.length "" ∧
      mdRow (List.replicate 3 "") = "|  |  |  |" := by
  have hnl : pyCsvParse "\n" ⟨[d]⟩ = Except.ok [[]] := rfl
  have hmid : pyCsvParse ("\n" ++ post) ⟨[d]⟩ = Except.ok ([[]] ++ r2) := by
    rw [pyCsvParse_append d "\n" post (by decide) rfl [[]] hnl, h2]
    rfl
  have hparse : pyCsvParse (pre ++ ("\n" ++ post)) ⟨[d]⟩ =
      Except.ok (header :: (rest1 ++ ([[]] ++ r2))) := by
    rw [pyCsvParse_append d pre ("\n" ++ post) hq hn (header :: rest1) h1, hmid]
    rfl
  refine ⟨hparse, ?_, normalizeRow_nil header.length, rfl⟩
  unfold csv_to_md_table
  rw [hparse]

/-- Witness for C9 at a three-column header with a blank line between two
data-free parts. -/
theorem blank_line_empty_row_witness :
    pyCsvParse ("a,b,c\n" ++ ("\n" ++ "d,e,f")) ⟨[',']⟩ =
        Except.ok (["a", "b", "c"] :: ([] ++ ([[]] ++ [["d", "e", "f"]]))) ∧
      csv_to_md_table ("a,b,c\n" ++ ("\n" ++ "d,e,f")) ⟨[',']⟩ =
        renderTable ["a", "b", "c"] ([] ++ ([[]] ++ [["d", "e", "f"]])) ∧
      normalizeRow (["a", "b", "c"] : List String).length [] =
        List.replicate (["a", "b", "c"] : List String).length "" ∧
      mdRow (List.replicate 3 "") = "|  |  |  |" :=
  blank_line_empty_row ',' "a,b,c\n" "d,e,f" ["a", "b", "c"] []
    [["d", "e", "f"]] (by decide) rfl rfl rfl

end Csv2md
